import Mathlib

/-!
Verification of the in-place rolling-update orchestrator of
machine-controller-manager (src/unnamed/part_000 and
src/pkg/controller/deployment_onlabel.go).

The Go code is shallowly embedded: machine sets, machines and nodes become
Lean structures; the remote cluster state (machines and nodes reachable
through listers and clients) becomes an explicit `World` value threaded
through every operation; every fallible remote call (list, patch, node
update, scale) is driven by an `Env` oracle that decides which calls fail,
so that all error paths of the source are expressible.  Replica counts are
Go `int32` values; they are modelled as `Int` (the arithmetic in the
source never approaches the `int32` range, so wrap-around is not modelled).
-/

namespace MCM

/-- Label key `v1alpha1.LabelKeyMachineCandidateForUpdate`. -/
def candidateKey : String := "node.machine.sapcloud.io/candidate-for-update"

/-- Label key `v1alpha1.LabelKeyMachineSelectedForUpdate`. -/
def selectedKey : String := "node.machine.sapcloud.io/selected-for-update"

/-- Label key `v1alpha1.LabelKeyMachineUpdateSuccessful`. -/
def updateSuccessfulKey : String := "node.machine.sapcloud.io/update-successful"

/-- Label key `v1alpha1.NodeLabelKey`: the machine label naming its backing node. -/
def nodeLabelKey : String := "node"

/-- A Go `map[string]string` of labels, as an association list (first hit wins). -/
abbrev LabelMap := List (String × String)

/-- Lookup of a key in a label map. -/
def lookupL : LabelMap → String → Option String
  | [], _ => none
  | kv :: rest, k => if kv.1 = k then some kv.2 else lookupL rest k

/-- Modelled from the spec (map merge helpers, spec section 9): `MergeStringMaps a b`
copies `a` and then overwrites with every entry of `b`; the second map takes
precedence.  The helper itself lives outside the provided source files. -/
def mergeStringMaps (a b : LabelMap) : LabelMap :=
  b ++ a.filter (fun kv => (lookupL b kv.1).isNone)

/-- `labels.SelectorFromSet(sel).Matches(ls)`: every pair of the selector
must be present in the label map. -/
def matchesSelector (ls sel : LabelMap) : Bool :=
  sel.all (fun kv => lookupL ls kv.1 == some kv.2)

/-- Modelled from the spec (section 4.4 step 1): `MergeWithOverwriteAndFilter m old new`
keeps the machine labels `m` minus all keys of the old selector, then merges
the new selector's labels on top.  The helper lives outside the provided
source files. -/
def mergeWithOverwriteAndFilter (m oldSel newSel : LabelMap) : LabelMap :=
  mergeStringMaps (m.filter (fun kv => (lookupL oldSel kv.1).isNone)) newSel

/-- A `v1alpha1.Machine`: name, labels and the machine set owning it. -/
structure Machine where
  name : String
  labels : LabelMap
  owner : String
deriving DecidableEq

/-- A core `v1.Node`: name, labels and the cordon flag `Spec.Unschedulable`. -/
structure Node where
  name : String
  labels : LabelMap
  unschedulable : Bool
deriving DecidableEq

/-- A `v1alpha1.MachineSet` (one generation): desired replicas (`Spec.Replicas`),
observed available replicas (`Status.AvailableReplicas`), creation timestamp
and the immutable selector (`Spec.Selector.MatchLabels`). -/
structure MachineSet where
  name : String
  replicas : Int
  availableReplicas : Int
  creationTimestamp : Nat
  selector : LabelMap
deriving DecidableEq

/-- A `v1alpha1.MachineDeployment`: desired replicas and the resolved
`maxUnavailable` of its update strategy. -/
structure MachineDeployment where
  replicas : Int
  maxUnavailable : Int
deriving DecidableEq

/-- One recorded call to the replica-scaling executor: target set and target count. -/
structure ScaleCall where
  setName : String
  target : Int
deriving DecidableEq

/-- The remote cluster state reachable through listers and clients, plus a log
of the scale calls issued during the pass. -/
structure World where
  machines : List Machine
  nodes : List Node
  scaleLog : List ScaleCall
deriving DecidableEq

/-- Errors returned by the embedded operations.  Constructors record which
remote call failed; `invalidRequest` is the hard arithmetic error of
`selectMachineForUpdate` naming the generation with its old and new counts. -/
inductive Err
  | listMachines (selector : LabelMap)
  | listNodes
  | patchMachine (name : String)
  | nodeUpdate (name : String)
  | scaleFailed (name : String)
  | invalidRequest (name : String) (oldCount newCount : Int)
  | nodeGet (name : String)
  | labelCandidateErr (e : Err)
  | revisionSyncErr
  | annotateErr
  | labelMachineSetsErr
  | syncMachineSetsErr
  | syncStatusErr
  | removeAnnotErr
  | cleanupErr
deriving DecidableEq

/-- The failure oracle: decides which remote calls fail during a pass, and the
outcomes of the external collaborators that are out of scope for this core
(revision sync, taints, autoscaler annotations, status sync, cleanup,
completeness check). -/
structure Env where
  patchFails : String → Bool
  nodeUpdateFails : String → Bool
  scaleFails : String → Bool
  machineListFails : LabelMap → Bool
  nodeListFails : Bool
  nodeGetFails : String → Bool
  revisionSyncFails : Bool
  taintFails : Bool
  annotateFails : Bool
  labelMachineSetsFails : Bool
  syncMachineSetsFails : Bool
  syncStatusFails : Bool
  removeAnnotFails : Bool
  cleanupFails : Bool
  deploymentComplete : Bool

/-- Patch of a machine during ownership transfer: replaces its labels and its
controller owner reference in one operation. -/
def patchMachineInWorld (w : World) (mname : String) (ls : LabelMap) (owner : String) : World :=
  ⟨w.machines.map (fun m => if m.name = mname then ⟨m.name, ls, owner⟩ else m),
   w.nodes, w.scaleLog⟩

/-- Patch of a machine that only replaces its labels (owner unchanged). -/
def patchMachineLabels (w : World) (mname : String) (ls : LabelMap) : World :=
  ⟨w.machines.map (fun m => if m.name = mname then ⟨m.name, ls, m.owner⟩ else m),
   w.nodes, w.scaleLog⟩

/-- Node update clearing `Spec.Unschedulable` (un-cordon). -/
def uncordonNode (w : World) (nname : String) : World :=
  ⟨w.machines,
   w.nodes.map (fun n => if n.name = nname then ⟨n.name, n.labels, false⟩ else n),
   w.scaleLog⟩

/-- Node update adding one label. -/
def setNodeLabel (w : World) (nname k v : String) : World :=
  ⟨w.machines,
   w.nodes.map (fun n =>
     if n.name = nname then ⟨n.name, mergeStringMaps n.labels [(k, v)], n.unschedulable⟩ else n),
   w.scaleLog⟩

/-- Result of a node get: found, not-found, or another error. -/
inductive NodeGetRes
  | found (n : Node)
  | notFound
  | errored
deriving DecidableEq

/-- Get of a node by name (`nodeLister.Get` / `Nodes().Get`): the oracle can
inject a non-not-found error; a node absent from the world is not-found. -/
def getNode (env : Env) (w : World) (nname : String) : NodeGetRes :=
  if env.nodeGetFails nname then .errored
  else
    match w.nodes.find? (fun n => n.name == nname) with
    | some n => .found n
    | none => .notFound

/-- Modelled from the spec (section 6: scale a generation to a target replica
count and record an event): `scaleMachineSetAndRecordEvent` is outside the
provided source files.  When the set already has the target size no remote
call is made; otherwise the call can fail (set unchanged) or succeed
(desired replicas become exactly the target, the call is logged).  The first
component reports whether a scaling occurred. -/
def scaleMachineSetAndRecordEvent (env : Env) (w : World) (is : MachineSet) (target : Int) :
    Bool × MachineSet × World × Option Err :=
  if is.replicas = target then (false, is, w, none)
  else if env.scaleFails is.name then (false, is, w, some (.scaleFailed is.name))
  else (true, ⟨is.name, target, is.availableReplicas, is.creationTimestamp, is.selector⟩,
        ⟨w.machines, w.nodes, w.scaleLog ++ [⟨is.name, target⟩]⟩, none)

/-- Modelled from the spec (section 6): `GetReplicaCountForMachineSets` sums the
desired replicas of the given sets. -/
def sumReplicas (l : List MachineSet) : Int :=
  (l.map (fun is => is.replicas)).sum

/-- Modelled from the spec (section 6): `GetAvailableReplicaCountForMachineSets`
sums the observed available replicas of the given sets. -/
def sumAvailableReplicas (l : List MachineSet) : Int :=
  (l.map (fun is => is.availableReplicas)).sum

/-- Modelled from the spec (section 6): `MaxUnavailable` resolves the update
strategy's maximum unavailable count; here it is carried as a deployment field. -/
def maxUnavailableOf (d : MachineDeployment) : Int := d.maxUnavailable

/-- Modelled from the spec: `FilterActiveMachineSets` keeps the sets with
positive desired replicas. -/
def filterActive (l : List MachineSet) : List MachineSet :=
  l.filter (fun is => 0 < is.replicas)

/-- Modelled from the spec (section 4.5 step 3): `machineSetsScaledToZero` holds
when every given set has desired replicas zero. -/
def machineSetsScaledToZero (l : List MachineSet) : Bool :=
  l.all (fun is => is.replicas == 0)

/-- Modelled from the spec (section 4.2): the comparator of
`MachineSetsByCreationTimestamp` orders generations by creation timestamp
ascending (oldest first), with the name as deterministic tiebreak. -/
def msBefore (a b : MachineSet) : Bool :=
  a.creationTimestamp < b.creationTimestamp ||
    (a.creationTimestamp == b.creationTimestamp && a.name ≤ b.name)

/-- Insertion step of the creation-timestamp sort. -/
def insertMS (a : MachineSet) : List MachineSet → List MachineSet
  | [] => [a]
  | b :: l => if msBefore a b then a :: b :: l else b :: insertMS a l

/-- `sort.Sort(MachineSetsByCreationTimestamp(oldISs))`: sort ascending by
creation timestamp (insertion sort; the source comparator is total, so any
sort produces the same ordered list up to the name tiebreak). -/
def sortMachineSets : List MachineSet → List MachineSet
  | [] => []
  | a :: l => insertMS a (sortMachineSets l)

/-- Modelled from the spec (section 4.4): `getMachineFromNode` locates, in the
given machine list, the machine backed by the given node (the machine whose
node label names the node); the source helper returns an error when no
machine matches, which the caller turns into a silent skip. -/
def getMachineFromNode (machines : List Machine) (node : Node) : Option Machine :=
  machines.find? (fun m => lookupL m.labels nodeLabelKey == some node.name)

/-- Embedding of `getMachinesForDrain` (src/unnamed/part_000, lines 381-401):
lists the machines of the set that carry the candidate-for-update label,
drops those already selected for update, and truncates to `readyForDrain`
when more were found.  (The Go slice expression would panic on a negative
`readyForDrain`; no caller passes one.) -/
def getMachinesForDrain (env : Env) (w : World) (is : MachineSet) (readyForDrain : Int) :
    Except Err (List Machine) :=
  let sel := mergeStringMaps is.selector [(candidateKey, "true")]
  if env.machineListFails sel then .error (.listMachines sel)
  else
    let machines := w.machines.filter (fun m => matchesSelector m.labels sel)
    let machinesWithoutSelected :=
      machines.filter (fun m => (lookupL m.labels selectedKey).isNone)
    if (machinesWithoutSelected.length : Int) > readyForDrain then
      .ok (machinesWithoutSelected.take readyForDrain.toNat)
    else
      .ok machinesWithoutSelected

/-- Inner loop of `labelMachinesToSelectedForUpdate` (src/unnamed/part_000,
lines 351-363): patch each drained machine with the selected-for-update
label, counting the successful patches; a patch failure returns the count so
far together with the error. -/
def labelLoop (env : Env) : List Machine → World → Int → Int × World × Option Err
  | [], w, c => (c, w, none)
  | m :: rest, w, c =>
    if env.patchFails m.name then (c, w, some (.patchMachine m.name))
    else
      labelLoop env rest
        (patchMachineLabels w m.name (mergeStringMaps m.labels [(selectedKey, "true")]))
        (c + 1)

/-- Embedding of `labelMachinesToSelectedForUpdate` (src/unnamed/part_000,
lines 340-366). -/
def labelMachinesToSelectedForUpdate (env : Env) (w : World) (is : MachineSet) (newScale : Int) :
    Int × World × Option Err :=
  match getMachinesForDrain env w is (is.replicas - newScale) with
  | .error e => (0, w, some e)
  | .ok machines => labelLoop env machines w 0

/-- Loop of `selectMachineForUpdate` (src/unnamed/part_000, lines 261-283) over
the generations sorted oldest first, with `cap` the selection budget
`totalReadyForUpdateCount` and the accumulator `total` the running
`totalReadyForUpdate`. -/
def selectLoop (env : Env) (cap : Int) : List MachineSet → World → Int → Int × World × Option Err
  | [], w, total => (total, w, none)
  | targetIS :: rest, w, total =>
    if total ≥ cap then (total, w, none)
    else if targetIS.replicas = 0 then selectLoop env cap rest w total
    else
      let readyForUpdateCount := min targetIS.replicas (cap - total)
      let newReplicasCount := targetIS.replicas - readyForUpdateCount
      if newReplicasCount > targetIS.replicas then
        (0, w, some (.invalidRequest targetIS.name targetIS.replicas newReplicasCount))
      else
        match labelMachinesToSelectedForUpdate env w targetIS newReplicasCount with
        | (sel, w1, some e) => (total + sel, w1, some e)
        | (sel, w1, none) => selectLoop env cap rest w1 (total + sel)

/-- Embedding of `selectMachineForUpdate` (src/unnamed/part_000, lines 244-286). -/
def selectMachineForUpdate (env : Env) (w : World) (allISs oldISs : List MachineSet)
    (d : MachineDeployment) (oldISsMachinesUndergoingUpdate : Int) : Int × World × Option Err :=
  let minAvailable := d.replicas - maxUnavailableOf d
  let availableMachineCount := sumAvailableReplicas allISs - oldISsMachinesUndergoingUpdate
  if availableMachineCount ≤ minAvailable then (0, w, none)
  else
    selectLoop env (availableMachineCount - minAvailable) (sortMachineSets oldISs) w 0

/-- Embedding of `getMachinesUndergoingUpdate` (src/unnamed/part_000, lines
368-379): counts, per old generation, the machines matching the selector
merged with the selected-for-update label. -/
def getMachinesUndergoingUpdate (env : Env) (w : World) :
    List MachineSet → Int → Int × Option Err
  | [], acc => (acc, none)
  | is :: rest, acc =>
    let sel := mergeStringMaps is.selector [(selectedKey, "true")]
    if env.machineListFails sel then (0, some (.listMachines sel))
    else
      getMachinesUndergoingUpdate env w rest
        (acc + ((w.machines.filter (fun m => matchesSelector m.labels sel)).length : Int))

/-- Embedding of `reconcileOldMachineSetsInPlace` (src/unnamed/part_000, lines
210-242): the budget gate in front of machine selection. -/
def reconcileOldMachineSetsInPlace (env : Env) (w : World) (allISs oldISs : List MachineSet)
    (newIS : MachineSet) (d : MachineDeployment) : Bool × World × Option Err :=
  let oldMachinesCount := sumReplicas oldISs
  if oldMachinesCount = 0 then (false, w, none)
  else
    let allMachinesCount := sumReplicas allISs
    let minAvailable := d.replicas - maxUnavailableOf d
    let newISUnavailableMachineCount := newIS.replicas - newIS.availableReplicas
    match getMachinesUndergoingUpdate env w oldISs 0 with
    | (_, some e) => (false, w, some e)
    | (oldISsMachinesUndergoingUpdate, none) =>
      if allMachinesCount - minAvailable - newISUnavailableMachineCount -
          oldISsMachinesUndergoingUpdate ≤ 0 then (false, w, none)
      else
        match selectMachineForUpdate env w allISs oldISs d oldISsMachinesUndergoingUpdate with
        | (_, w1, some e) => (false, w1, some e)
        | (machinesSelectedForUpdate, w1, none) => (machinesSelectedForUpdate > 0, w1, none)

/-- Outcome of the per-generation transfer loop of
`reconcileNewMachineSetInPlace`: either the loop finished (`ok`, with the
updated world, the count transferred out of this generation and the running
count added to the new generation), or the whole function returned early
(`halt`, carrying the function's boolean result, its error, and the possibly
compensation-scaled old and new sets). -/
inductive TransferRes
  | ok (w : World) (transferred added : Int)
  | halt (res : Bool) (e : Err) (w : World) (is newIS : MachineSet)
deriving DecidableEq

/-- Inner loop of `reconcileNewMachineSetInPlace` (src/unnamed/part_000, lines
147-195) over the nodes carrying update-successful: locate the owning
machine in this generation's machine list (skip if none), patch its owner
reference and labels over to the new set, and un-cordon its node.  On patch
failure, compensate by scaling the new set up to the replicas already added
and the old set down by the count transferred out of it, then return the
original patch error - unless the first compensating scale itself fails, in
which case that scale error is returned. -/
def transferLoop (env : Env) (machines : List Machine) (is newIS : MachineSet) :
    List Node → World → Int → Int → TransferRes
  | [], w, t, a => .ok w t a
  | node :: rest, w, t, a =>
    match getMachineFromNode machines node with
    | none => transferLoop env machines is newIS rest w t a
    | some machine =>
      if env.patchFails machine.name then
        match scaleMachineSetAndRecordEvent env w newIS (newIS.replicas + a) with
        | (_, newIS1, w1, some e2) => .halt (decide (a > 0)) e2 w1 is newIS1
        | (scaled1, newIS1, w1, none) =>
          match scaleMachineSetAndRecordEvent env w1 is (is.replicas - t) with
          | (_, is1, w2, some _) => .halt (decide (a > 0)) (.patchMachine machine.name) w2 is1 newIS1
          | (_, is1, w2, none) => .halt scaled1 (.patchMachine machine.name) w2 is1 newIS1
      else
        let machineNewLabels :=
          mergeStringMaps (mergeWithOverwriteAndFilter machine.labels is.selector newIS.selector)
            [(updateSuccessfulKey, "true")]
        let w1 := patchMachineInWorld w machine.name machineNewLabels newIS.name
        if env.nodeUpdateFails node.name then .halt false (.nodeUpdate node.name) w1 is newIS
        else transferLoop env machines is newIS rest (uncordonNode w1 node.name) (t + 1) (a + 1)

/-- Outcome of the loop of `reconcileNewMachineSetInPlace` over the old
generations: finished with the updated old sets and total added count, or an
early return of the whole function. -/
inductive NewISRes
  | ok (w : World) (olds : List MachineSet) (added : Int)
  | halt (res : Bool) (e : Err) (w : World) (olds : List MachineSet) (newIS : MachineSet)
deriving DecidableEq

/-- Outer loop of `reconcileNewMachineSetInPlace` (src/unnamed/part_000, lines
129-203): per old generation, list its machines and the update-successful
nodes, run the transfer loop, then scale the generation down by its
transferred count. -/
def newISLoop (env : Env) (newIS : MachineSet) : List MachineSet → World → Int → NewISRes
  | [], w, a => .ok w [] a
  | is :: rest, w, a =>
    if env.machineListFails is.selector then
      .halt false (.listMachines is.selector) w (is :: rest) newIS
    else
      let machines := w.machines.filter (fun m => matchesSelector m.labels is.selector)
      if env.nodeListFails then .halt false .listNodes w (is :: rest) newIS
      else
        let nodes := w.nodes.filter (fun n => lookupL n.labels updateSuccessfulKey == some "true")
        match transferLoop env machines is newIS nodes w 0 a with
        | .halt r e w1 is1 newIS1 => .halt r e w1 (is1 :: rest) newIS1
        | .ok w1 t a1 =>
          match scaleMachineSetAndRecordEvent env w1 is (is.replicas - t) with
          | (_, is1, w2, some e) => .halt (decide (a1 > 0)) e w2 (is1 :: rest) newIS
          | (_, is1, w2, none) =>
            match newISLoop env newIS rest w2 a1 with
            | .ok w3 olds a2 => .ok w3 (is1 :: olds) a2
            | .halt r e w3 olds n1 => .halt r e w3 (is1 :: olds) n1

/-- Embedding of `reconcileNewMachineSetInPlace` (src/unnamed/part_000, lines
114-208).  The result carries the Go return pair `(scaled, err)` together
with the final world and the old and new machine sets as left by the scale
calls of this pass. -/
def reconcileNewMachineSetInPlace (env : Env) (w : World) (oldISs : List MachineSet)
    (newIS : MachineSet) (d : MachineDeployment) :
    (Bool × Option Err) × World × List MachineSet × MachineSet :=
  if newIS.replicas = d.replicas then ((false, none), w, oldISs, newIS)
  else if newIS.replicas > d.replicas then
    match scaleMachineSetAndRecordEvent env w newIS d.replicas with
    | (scaled, newIS1, w1, e) => ((scaled, e), w1, oldISs, newIS1)
  else
    match newISLoop env newIS oldISs w 0 with
    | .halt r e w1 olds n1 => ((r, some e), w1, olds, n1)
    | .ok w1 olds a =>
      match scaleMachineSetAndRecordEvent env w1 newIS (newIS.replicas + a) with
      | (scaled, newIS1, w2, e) => ((scaled, e), w2, olds, newIS1)

/-- Inner loop of `labelNodesBackingMachineSets` (src/unnamed/part_000, lines
302-333): for each machine with a node label, patch the candidate-for-update
label onto the machine, then fetch the backing node - a not-found lookup
skips to the next machine - and label the node unless already labeled. -/
def labelNodesMachineLoop (env : Env) : List Machine → World → World × Option Err
  | [], w => (w, none)
  | m :: rest, w =>
    match lookupL m.labels nodeLabelKey with
    | none => labelNodesMachineLoop env rest w
    | some nname =>
      if nname = "" then labelNodesMachineLoop env rest w
      else
        if env.patchFails m.name then (w, some (.patchMachine m.name))
        else
          let w1 := patchMachineLabels w m.name (mergeStringMaps m.labels [(candidateKey, "true")])
          match getNode env w1 nname with
          | .errored => (w1, some (.nodeGet nname))
          | .notFound => labelNodesMachineLoop env rest w1
          | .found n =>
            if lookupL n.labels candidateKey == some "true" then
              labelNodesMachineLoop env rest w1
            else if env.nodeUpdateFails n.name then (w1, some (.nodeUpdate n.name))
            else labelNodesMachineLoop env rest (setNodeLabel w1 n.name candidateKey "true")

/-- Embedding of `labelNodesBackingMachineSets` (src/unnamed/part_000, lines
289-338).  (The Go `label` parameter is used only in log lines; the patched
label is the hard-coded candidate-for-update key.) -/
def labelNodesBackingMachineSets (env : Env) : List MachineSet → World → World × Option Err
  | [], w => (w, none)
  | ms :: rest, w =>
    if env.machineListFails ms.selector then (w, some (.listMachines ms.selector))
    else
      let filteredMachines := w.machines.filter (fun m => matchesSelector m.labels ms.selector)
      match labelNodesMachineLoop env filteredMachines w with
      | (w1, some e) => (w1, some e)
      | (w1, none) => labelNodesBackingMachineSets env rest w1

/-- Inner loop of `getAndLabelMachinesSelectedForUpdate`
(src/pkg/controller/deployment_onlabel.go, lines 136-164): for each machine
with a node label, get the node - any lookup error is logged and skipped -
and, when the node carries the selected-for-update label, patch that label
onto the machine. -/
def galMachineLoop (env : Env) : List Machine → World → Bool → Bool × World × Option Err
  | [], w, b => (b, w, none)
  | m :: rest, w, b =>
    match lookupL m.labels nodeLabelKey with
    | none => galMachineLoop env rest w b
    | some nname =>
      if nname = "" then galMachineLoop env rest w b
      else
        match getNode env w nname with
        | .errored => galMachineLoop env rest w b
        | .notFound => galMachineLoop env rest w b
        | .found n =>
          match lookupL n.labels selectedKey with
          | none => galMachineLoop env rest w b
          | some _ =>
            if env.patchFails m.name then (false, w, some (.patchMachine m.name))
            else
              galMachineLoop env rest
                (patchMachineLabels w m.name (mergeStringMaps m.labels [(selectedKey, "true")]))
                true

/-- Embedding of `getAndLabelMachinesSelectedForUpdate`
(src/pkg/controller/deployment_onlabel.go, lines 122-169). -/
def getAndLabelMachinesSelectedForUpdate (env : Env) :
    List MachineSet → World → Bool → Bool × World × Option Err
  | [], w, b => (b, w, none)
  | is :: rest, w, b =>
    if is.replicas = 0 then getAndLabelMachinesSelectedForUpdate env rest w b
    else if env.machineListFails is.selector then (false, w, some (.listMachines is.selector))
    else
      let machines := w.machines.filter (fun m => matchesSelector m.labels is.selector)
      match galMachineLoop env machines w b with
      | (b1, w1, some e) => (b1, w1, some e)
      | (b1, w1, none) => getAndLabelMachinesSelectedForUpdate env rest w1 b1

/-- What the orchestrator did this pass: the result of the ownership-transfer
step if it was reached, and whether the machine-selection step ran. -/
structure Trace where
  transferOutcome : Option (Bool × Option Err)
  selectionRan : Bool
deriving DecidableEq

/-- Result of `syncRolloutStatus`, an external collaborator. -/
def syncStatus (env : Env) : Option Err :=
  if env.syncStatusFails then some .syncStatusErr else none

/-- Shared tail of both orchestrators after the selection step reported no
progress: completion check, autoscaler-annotation removal, cleanup, status
sync (src/unnamed/part_000, lines 96-111). -/
def rolloutCompletionTail (env : Env) (flag : Bool) : Option Err :=
  if env.deploymentComplete then
    if flag && env.removeAnnotFails then some .removeAnnotErr
    else if env.cleanupFails then some .cleanupErr
    else syncStatus env
  else syncStatus env

/-- Selection step and completion tail of the automatic variant: the part of
`rolloutAutoInPlace` after an ownership-transfer step that reported neither
error nor progress (src/unnamed/part_000, lines 86-111). -/
def autoSelectionPhase (env : Env) (flag : Bool) (allISs oldISs : List MachineSet)
    (newIS : MachineSet) (d : MachineDeployment) (w2 : World) : Option Err × Trace × World :=
  match reconcileOldMachineSetsInPlace env w2 allISs (filterActive oldISs) newIS d with
  | (_, w3, some e) => (some e, ⟨some (false, none), true⟩, w3)
  | (machinesSelected, w3, none) =>
    if machinesSelected then (syncStatus env, ⟨some (false, none), true⟩, w3)
    else (rolloutCompletionTail env flag, ⟨some (false, none), true⟩, w3)

/-- Selection step and completion tail of the manual variant: the part of
`rolloutManualInPlace` after an ownership-transfer step that reported
neither error nor progress (src/pkg/controller/deployment_onlabel.go, lines
92-118).  The selection error is only logged; the progress boolean alone
steers the pass. -/
def manualSelectionPhase (env : Env) (flag : Bool) (oldISs : List MachineSet) (w2 : World) :
    Option Err × Trace × World :=
  match getAndLabelMachinesSelectedForUpdate env oldISs w2 false with
  | (machinesSelected, w3, _) =>
    if machinesSelected then (syncStatus env, ⟨some (false, none), true⟩, w3)
    else (rolloutCompletionTail env flag, ⟨some (false, none), true⟩, w3)

/-- Embedding of `rolloutAutoInPlace` (src/unnamed/part_000, lines 26-112).
`flag` is the controller field `autoscalerScaleDownAnnotationDuringRollout`;
revision sync supplies `newIS` and `oldISs`, here taken as arguments with an
oracle-driven failure.  The node taint is best-effort (failures only
logged).  The machine sets passed to the old-set reconciler are the
pass-start objects: the scale calls of the transfer step update the remote
state, not the local list (whose updated copies the source discards). -/
def rolloutAutoInPlace (env : Env) (w : World) (flag : Bool) (oldISs : List MachineSet)
    (newIS : MachineSet) (d : MachineDeployment) : Option Err × Trace × World :=
  if env.revisionSyncFails then (some .revisionSyncErr, ⟨none, false⟩, w)
  else
    let allISs := oldISs ++ [newIS]
    if flag && !oldISs.isEmpty && !machineSetsScaledToZero oldISs && env.annotateFails then
      (some .annotateErr, ⟨none, false⟩, w)
    else
      match labelNodesBackingMachineSets env oldISs w with
      | (w1, some e) => (some (.labelCandidateErr e), ⟨none, false⟩, w1)
      | (w1, none) =>
        match reconcileNewMachineSetInPlace env w1 oldISs newIS d with
        | ((scaledUp, some e), w2, _, _) => (some e, ⟨some (scaledUp, some e), false⟩, w2)
        | ((scaledUp, none), w2, _, _) =>
          if scaledUp then (syncStatus env, ⟨some (true, none), false⟩, w2)
          else autoSelectionPhase env flag allISs oldISs newIS d w2

/-- Embedding of `rolloutManualInPlace`
(src/pkg/controller/deployment_onlabel.go, lines 23-119).  The manual
variant additionally labels the old sets with the skip-update label and
syncs the machine sets (both external, oracle-driven); its selection step is
`getAndLabelMachinesSelectedForUpdate`, whose error is only logged - the
returned progress boolean alone steers the pass. -/
def rolloutManualInPlace (env : Env) (w : World) (flag : Bool) (oldISs : List MachineSet)
    (newIS : MachineSet) (d : MachineDeployment) : Option Err × Trace × World :=
  if env.revisionSyncFails then (some .revisionSyncErr, ⟨none, false⟩, w)
  else
    if !oldISs.isEmpty && !machineSetsScaledToZero oldISs && env.labelMachineSetsFails then
      (some .labelMachineSetsErr, ⟨none, false⟩, w)
    else if flag && !oldISs.isEmpty && !machineSetsScaledToZero oldISs && env.annotateFails then
      (some .annotateErr, ⟨none, false⟩, w)
    else if env.syncMachineSetsFails then (some .syncMachineSetsErr, ⟨none, false⟩, w)
    else
      match reconcileNewMachineSetInPlace env w oldISs newIS d with
      | ((scaledUp, some e), w2, _, _) => (some e, ⟨some (scaledUp, some e), false⟩, w2)
      | ((scaledUp, none), w2, _, _) =>
        if scaledUp then (syncStatus env, ⟨some (true, none), false⟩, w2)
        else manualSelectionPhase env flag oldISs w2

/-- Selection loop written from the words of the specification (spec section
4.2): process the generations oldest first; skip a generation whose desired
replica count is zero; otherwise move `min(generationReplicas,
remainingBudget)` machines of it to the selected state, the within-generation
"not yet selected" count becoming `generationReplicas - readyForUpdateCount`;
stop once the total selected reaches the budget.  To be compared with
`selectLoop`, the loop embedded from the source. -/
def selectSpecLoop (env : Env) (cap : Int) :
    List MachineSet → World → Int → Int × World × Option Err
  | [], w, total => (total, w, none)
  | g :: rest, w, total =>
    if cap ≤ total then (total, w, none)
    else if g.replicas = 0 then selectSpecLoop env cap rest w total
    else
      let readyForUpdateCount := min g.replicas (cap - total)
      match labelMachinesToSelectedForUpdate env w g (g.replicas - readyForUpdateCount) with
      | (sel, w1, some e) => (total + sel, w1, some e)
      | (sel, w1, none) => selectSpecLoop env cap rest w1 (total + sel)

/-- `selectMachineForUpdate` as described by the specification: the budget gate
of spec section 4.2 in front of `selectSpecLoop` over the generations sorted
by creation timestamp ascending. -/
def selectMachineForUpdateSpec (env : Env) (w : World) (allISs oldISs : List MachineSet)
    (d : MachineDeployment) (oldISsMachinesUndergoingUpdate : Int) : Int × World × Option Err :=
  let minAvailable := d.replicas - maxUnavailableOf d
  let availableMachineCount := sumAvailableReplicas allISs - oldISsMachinesUndergoingUpdate
  if availableMachineCount ≤ minAvailable then (0, w, none)
  else
    selectSpecLoop env (availableMachineCount - minAvailable) (sortMachineSets oldISs) w 0

/-- A failure oracle where every remote call succeeds, the deployment is not
complete and no external collaborator fails.  (Fields in declaration order:
patch, node update, scale, machine list, node list, node get, revision sync,
taint, annotate, label machine sets, sync machine sets, sync status, remove
autoscaler marks, cleanup, completeness.) -/
def envOK : Env :=
  ⟨fun _ => false, fun _ => false, fun _ => false, fun _ => false, false, fun _ => false,
   false, false, false, false, false, false, false, false, false⟩

/-- Oracle for the compensation scenario: the patch of machine `m2` fails and
scaling the machine set `new` fails; everything else succeeds. -/
def c5Env : Env :=
  ⟨fun s => s == "m2", fun _ => false, fun s => s == "new", fun _ => false, false,
   fun _ => false, false, false, false, false, false, false, false, false, false⟩

/-- World for the compensation scenario: two machines of the old generation,
each backed by a node that signalled update-successful. -/
def c5World : World :=
  ⟨[⟨"m1", [("t", "o"), (nodeLabelKey, "n1")], "old"⟩,
    ⟨"m2", [("t", "o"), (nodeLabelKey, "n2")], "old"⟩],
   [⟨"n1", [(updateSuccessfulKey, "true")], true⟩,
    ⟨"n2", [(updateSuccessfulKey, "true")], true⟩],
   []⟩

/-- The old generation of the compensation scenario. -/
def c5OldIS : MachineSet := ⟨"old", 2, 2, 0, [("t", "o")]⟩

/-- The new generation of the compensation scenario. -/
def c5NewIS : MachineSet := ⟨"new", 0, 0, 1, [("t", "n")]⟩

/-- World for the budget-gate scenario: one machine of the old generation, not
selected for update. -/
def c3World : World := ⟨[⟨"m1", [("t", "o")], "old"⟩], [], []⟩

/-- A machine carrying the candidate-for-update label (drain-contract scenario). -/
def c7Machine : Machine := ⟨"m1", [("t", "o"), (candidateKey, "true")], "old"⟩

/-- A generation whose selector binds the candidate-for-update key to a value
other than true (drain-contract counterexample). -/
def c7BadIS : MachineSet := ⟨"old", 1, 1, 0, [(candidateKey, "false")]⟩

/-- World for the conservation scenario: one old-generation machine whose node
signalled update-successful. -/
def c1World : World :=
  ⟨[⟨"m1", [("t", "o"), (nodeLabelKey, "n1")], "old"⟩],
   [⟨"n1", [(updateSuccessfulKey, "true")], true⟩], []⟩

/-- The old generation of the conservation scenario. -/
def c1Old : MachineSet := ⟨"old", 3, 3, 0, [("t", "o")]⟩

/-- The new generation of the conservation scenario. -/
def c1New : MachineSet := ⟨"new", 0, 0, 1, [("t", "n")]⟩

/- ------------------------------------------------------------------ -/
/- Theorems.                                                          -/
/- ------------------------------------------------------------------ -/

/-- A key that looks up to nothing heads no pair of the map. -/
theorem lookupL_eq_none_forall {l : LabelMap} {k : String} (h : lookupL l k = none) :
    ∀ p ∈ l, p.1 ≠ k := by
  induction l with
  | nil => intro p hp; cases hp
  | cons kv rest ih =>
    intro p hp
    unfold lookupL at h
    by_cases hk : kv.1 = k
    · rw [if_pos hk] at h; cases h
    · rw [if_neg hk] at h
      rcases List.mem_cons.mp hp with hpe | hpr
      · rw [hpe]; exact hk
      · exact ih h p hpr

/-- Matching a selector merged with one extra pair, when the selector does not
itself bind the extra key, means carrying the extra pair and matching the
plain selector. -/
theorem matchesSelector_merge_single {ls sel : LabelMap} {k v : String}
    (hk : lookupL sel k = none)
    (h : matchesSelector ls (mergeStringMaps sel [(k, v)]) = true) :
    lookupL ls k = some v ∧ matchesSelector ls sel = true := by
  unfold matchesSelector mergeStringMaps at h
  rw [List.all_append, Bool.and_eq_true] at h
  obtain ⟨h1, h2⟩ := h
  have hkv : lookupL ls k = some v := by
    have := (List.all_eq_true.mp h1) (k, v) (by exact List.mem_singleton.mpr rfl)
    exact eq_of_beq this
  refine ⟨hkv, ?_⟩
  have hfilter :
      sel.filter (fun kv => (lookupL [(k, v)] kv.1).isNone) = sel := by
    apply List.filter_eq_self.mpr
    intro p hp
    have hne := lookupL_eq_none_forall hk p hp
    simp only [lookupL, Option.isNone]
    rw [if_neg (fun he => hne he.symm)]
  rw [hfilter] at h2
  exact h2

/-- A member of the drain pool (candidate-selector match, selected filtered out)
matches the plain selector of the generation when that selector does not bind
the candidate key, carries the candidate label, and is not selected. -/
theorem mem_drain_pool {w : World} {is : MachineSet} {m : Machine}
    (hsel : lookupL is.selector candidateKey = none)
    (hm : m ∈ (w.machines.filter (fun m =>
        matchesSelector m.labels (mergeStringMaps is.selector [(candidateKey, "true")]))).filter
        (fun m => (lookupL m.labels selectedKey).isNone)) :
    matchesSelector m.labels is.selector = true ∧
      lookupL m.labels candidateKey = some "true" ∧
      (lookupL m.labels selectedKey).isNone = true := by
  rw [List.mem_filter] at hm
  obtain ⟨hm1, hp2⟩ := hm
  rw [List.mem_filter] at hm1
  obtain ⟨-, hp1⟩ := hm1
  obtain ⟨ha, hb⟩ := matchesSelector_merge_single hsel hp1
  exact ⟨hb, ha, hp2⟩

/-- Claim C7 (amended): for every generation whose selector does not itself
bind the candidate-for-update key and every nonnegative target drain count,
`getMachinesForDrain` returns at most the target count of machines, and every
returned machine matches the generation's selector, carries the
candidate-for-update label and does not carry the selected-for-update label.
(In general a returned machine matches the selector merged with
candidate-for-update=true; the plain-selector phrasing of the claim fails for
a selector binding that key, see the counterexample.) -/
theorem getMachinesForDrain_contract (env : Env) (w : World) (is : MachineSet) (n : Int)
    (hn : 0 ≤ n) (hsel : lookupL is.selector candidateKey = none)
    (ms : List Machine) (h : getMachinesForDrain env w is n = .ok ms) :
    (ms.length : Int) ≤ n ∧
      ∀ m ∈ ms, matchesSelector m.labels is.selector = true ∧
        lookupL m.labels candidateKey = some "true" ∧
        (lookupL m.labels selectedKey).isNone = true := by
  simp only [getMachinesForDrain] at h
  split at h
  · cases h
  · split at h
    · next hgt =>
      cases h
      constructor
      · rw [List.length_take]
        omega
      · intro m hm
        exact mem_drain_pool hsel (List.take_subset _ _ hm)
    · next hle =>
      cases h
      constructor
      · omega
      · intro m hm
        exact mem_drain_pool hsel hm

/-- Claim C7, counterexample to the claim as stated: when the generation's
selector itself binds the candidate-for-update key (here to false), the
listing uses the selector overridden with candidate-for-update=true, so the
returned machine does not match the generation's selector. -/
theorem c7_counterexample :
    getMachinesForDrain envOK ⟨[c7Machine], [], []⟩ c7BadIS 1 = .ok [c7Machine] ∧
      matchesSelector c7Machine.labels c7BadIS.selector = false :=
  ⟨rfl, by decide⟩

/-- Claim C7, witness: the drain contract evaluated on a concrete generation
and world. -/
theorem c7_witness :
    ((getMachinesForDrain envOK ⟨[c7Machine], [], []⟩ ⟨"old", 1, 1, 0, [("t", "o")]⟩ 1).toOption.getD []).length ≤ (1 : Int) ∧
      matchesSelector c7Machine.labels [("t", "o")] = true ∧
      lookupL c7Machine.labels candidateKey = some "true" ∧
      (lookupL c7Machine.labels selectedKey).isNone = true := by
  have h := getMachinesForDrain_contract envOK ⟨[c7Machine], [], []⟩
    ⟨"old", 1, 1, 0, [("t", "o")]⟩ 1 (by decide) (by decide) [c7Machine] rfl
  exact ⟨h.1, (h.2 c7Machine (by decide)).1, (h.2 c7Machine (by decide)).2.1,
    (h.2 c7Machine (by decide)).2.2⟩

/-- Claim C3: when the machines-undergoing-update count is obtained without
error and the budget `allMachinesCount - minAvailable -
newISUnavailableMachineCount - oldISsMachinesUndergoingUpdate` is not
positive, `reconcileOldMachineSetsInPlace` returns the no-op signal `(false,
nil)` - not an error - and leaves the world untouched: no machine gains the
selected-for-update label and no scale call is logged. -/
theorem budget_gate_noop (env : Env) (w : World) (allISs oldISs : List MachineSet)
    (newIS : MachineSet) (d : MachineDeployment) (u : Int)
    (hu : getMachinesUndergoingUpdate env w oldISs 0 = (u, none))
    (hgate : sumReplicas allISs - (d.replicas - maxUnavailableOf d) -
      (newIS.replicas - newIS.availableReplicas) - u ≤ 0) :
    reconcileOldMachineSetsInPlace env w allISs oldISs newIS d = (false, w, none) := by
  simp only [reconcileOldMachineSetsInPlace, hu]
  split
  · rfl
  · simp only [if_pos hgate]

/-- Claim C3, witness: the budget gate evaluated on a concrete pass whose new
generation is entirely unavailable. -/
theorem c3_witness :
    reconcileOldMachineSetsInPlace envOK c3World
      [⟨"old", 5, 5, 0, [("t", "o")]⟩, ⟨"new", 5, 0, 1, [("t", "n")]⟩]
      [⟨"old", 5, 5, 0, [("t", "o")]⟩] ⟨"new", 5, 0, 1, [("t", "n")]⟩ ⟨5, 0⟩ =
      (false, c3World, none) :=
  budget_gate_noop envOK c3World _ _ _ _ 0 (by decide) (by decide)

/-- The labeling loop never decreases its counter. -/
theorem labelLoop_ge (env : Env) : ∀ (ms : List Machine) (w : World) (c : Int),
    c ≤ (labelLoop env ms w c).1 := by
  intro ms
  induction ms with
  | nil => intro w c; simp [labelLoop]
  | cons m rest ih =>
    intro w c
    simp only [labelLoop]
    split
    · simp
    · exact le_trans (by omega) (ih _ (c + 1))

/-- The labeling loop increments its counter at most once per machine. -/
theorem labelLoop_le (env : Env) : ∀ (ms : List Machine) (w : World) (c : Int),
    (labelLoop env ms w c).1 ≤ c + ms.length := by
  intro ms
  induction ms with
  | nil => intro w c; simp [labelLoop]
  | cons m rest ih =>
    intro w c
    simp only [labelLoop]
    rw [List.length_cons]
    split
    · simp; omega
    · have h := ih (patchMachineLabels w m.name (mergeStringMaps m.labels [(selectedKey, "true")]))
        (c + 1)
      omega

/-- `getMachinesForDrain` returns at most `readyForDrain` machines (and none
for a negative target). -/
theorem getMachinesForDrain_len (env : Env) (w : World) (is : MachineSet) (n : Int)
    (ms : List Machine) (h : getMachinesForDrain env w is n = .ok ms) :
    (ms.length : Int) ≤ max n 0 := by
  simp only [getMachinesForDrain] at h
  split at h
  · cases h
  · split at h
    · cases h
      rw [List.length_take]
      omega
    · next hle =>
      cases h
      omega

/-- `labelMachinesToSelectedForUpdate` reports a nonnegative count. -/
theorem labelMachines_nonneg (env : Env) (w : World) (is : MachineSet) (ns : Int) :
    0 ≤ (labelMachinesToSelectedForUpdate env w is ns).1 := by
  unfold labelMachinesToSelectedForUpdate
  split
  · simp
  · simpa using labelLoop_ge env _ w 0

/-- `labelMachinesToSelectedForUpdate` labels at most `replicas - newScale`
machines. -/
theorem labelMachines_le (env : Env) (w : World) (is : MachineSet) (ns : Int) :
    (labelMachinesToSelectedForUpdate env w is ns).1 ≤ max (is.replicas - ns) 0 := by
  unfold labelMachinesToSelectedForUpdate
  split
  · show (0 : Int) ≤ max (is.replicas - ns) 0
    omega
  · next ms heq =>
    have h1 := labelLoop_le env ms w 0
    have h2 := getMachinesForDrain_len env w is (is.replicas - ns) ms heq
    omega

/-- The selection loop never pushes the running total past the budget. -/
theorem selectLoop_le (env : Env) (cap : Int) : ∀ (l : List MachineSet) (w : World) (total : Int),
    0 ≤ total → total ≤ cap → (selectLoop env cap l w total).1 ≤ cap := by
  intro l
  induction l with
  | nil => intro w total h0 hc; simpa [selectLoop] using hc
  | cons g rest ih =>
    intro w total h0 hc
    simp only [selectLoop]
    split
    · simpa using hc
    · next hlt =>
      split
      · exact ih w total h0 hc
      · split
        · simp
          omega
        · next hinv =>
          rcases hl : labelMachinesToSelectedForUpdate env w g
              (g.replicas - min g.replicas (cap - total)) with ⟨sel, w1, e⟩
          have hnn := labelMachines_nonneg env w g (g.replicas - min g.replicas (cap - total))
          have hle2 := labelMachines_le env w g (g.replicas - min g.replicas (cap - total))
          rw [hl] at hnn hle2
          simp only at hnn hle2
          cases e with
          | some e =>
            simp [hl]
            omega
          | none =>
            simp only [hl]
            exact ih w1 (total + sel) (by omega) (by omega)

/-- Claim C2: machine selection respects the availability budget.  If the
available machine count (available replicas over all generations minus
old-generation machines already undergoing update) does not exceed
`minAvailable`, `selectMachineForUpdate` selects nothing, returns no error
and leaves the world untouched; and in every case the returned count of
machines newly labeled selected-for-update (each unit of the count is one
label patch applied, see `labelLoop`) is at most
`availableMachineCount - minAvailable`. -/
theorem budget_respected (env : Env) (w : World) (allISs oldISs : List MachineSet)
    (d : MachineDeployment) (u : Int) :
    ((sumAvailableReplicas allISs - u ≤ d.replicas - maxUnavailableOf d) →
      selectMachineForUpdate env w allISs oldISs d u = (0, w, none)) ∧
    (selectMachineForUpdate env w allISs oldISs d u).1 ≤
      max (sumAvailableReplicas allISs - u - (d.replicas - maxUnavailableOf d)) 0 := by
  constructor
  · intro hle
    simp only [selectMachineForUpdate, if_pos hle]
  · simp only [selectMachineForUpdate]
    split
    · simp
    · next hgt =>
      have h := selectLoop_le env (sumAvailableReplicas allISs - u - (d.replicas - maxUnavailableOf d))
        (sortMachineSets oldISs) w 0 le_rfl (by omega)
      omega

/-- Claim C2, witness: with no available machines the gate refuses to select. -/
theorem c2_witness :
    selectMachineForUpdate envOK c3World [] [] ⟨1, 0⟩ 0 = (0, c3World, none) ∧
      (selectMachineForUpdate envOK c3World [] [] ⟨1, 0⟩ 0).1 ≤
        max (sumAvailableReplicas [] - 0 -
          ((⟨1, 0⟩ : MachineDeployment).replicas - maxUnavailableOf ⟨1, 0⟩)) 0 := by
  have h := budget_respected envOK c3World [] [] ⟨1, 0⟩ 0
  exact ⟨h.1 (by decide), h.2⟩

/-- Every member of an insertion step was the inserted element or a member
before. -/
theorem mem_insertMS {x a : MachineSet} : ∀ {l : List MachineSet},
    x ∈ insertMS a l → x = a ∨ x ∈ l := by
  intro l
  induction l with
  | nil => intro h; simpa [insertMS] using h
  | cons b rest ih =>
    intro h
    simp only [insertMS] at h
    split at h
    · rcases List.mem_cons.mp h with h1 | h1
      · exact Or.inl h1
      · exact Or.inr h1
    · rcases List.mem_cons.mp h with h1 | h1
      · exact Or.inr (List.mem_cons.mpr (Or.inl h1))
      · rcases ih h1 with h2 | h2
        · exact Or.inl h2
        · exact Or.inr (List.mem_cons.mpr (Or.inr h2))

/-- Sorting by creation timestamp preserves membership. -/
theorem mem_sortMachineSets {x : MachineSet} : ∀ {l : List MachineSet},
    x ∈ sortMachineSets l → x ∈ l := by
  intro l
  induction l with
  | nil => intro h; simp [sortMachineSets] at h
  | cons a rest ih =>
    intro h
    rcases mem_insertMS h with h1 | h1
    · exact h1 ▸ List.mem_cons_self a rest
    · exact List.mem_cons.mpr (Or.inr (ih h1))

/-- The error of `getMachinesForDrain` is always a machine-list error. -/
theorem getMachinesForDrain_err (env : Env) (w : World) (is : MachineSet) (n : Int)
    (e : Err) (h : getMachinesForDrain env w is n = .error e) :
    e = .listMachines (mergeStringMaps is.selector [(candidateKey, "true")]) := by
  simp only [getMachinesForDrain] at h
  split at h
  · cases h; rfl
  · split at h <;> cases h

/-- The labeling loop never produces the invalid-request error. -/
theorem labelLoop_no_invalid (env : Env) :
    ∀ (ms : List Machine) (w : World) (c : Int) (name : String) (oc nc : Int),
    (labelLoop env ms w c).2.2 ≠ some (.invalidRequest name oc nc) := by
  intro ms
  induction ms with
  | nil => intro w c name oc nc; simp [labelLoop]
  | cons m rest ih =>
    intro w c name oc nc
    simp only [labelLoop]
    split
    · simp
    · exact ih _ (c + 1) name oc nc

/-- `labelMachinesToSelectedForUpdate` never produces the invalid-request
error. -/
theorem labelMachines_no_invalid (env : Env) (w : World) (is : MachineSet) (ns : Int)
    (name : String) (oc nc : Int) :
    (labelMachinesToSelectedForUpdate env w is ns).2.2 ≠ some (.invalidRequest name oc nc) := by
  unfold labelMachinesToSelectedForUpdate
  split
  · next e heq =>
    rw [getMachinesForDrain_err env w is _ e heq]
    simp
  · exact labelLoop_no_invalid env _ w 0 name oc nc

/-- With nonnegative replica counts the selection loop never takes the
invalid-request branch. -/
theorem selectLoop_no_invalid (env : Env) (cap : Int) :
    ∀ (l : List MachineSet), (∀ g ∈ l, 0 ≤ g.replicas) →
    ∀ (w : World) (total : Int) (name : String) (oc nc : Int),
    (selectLoop env cap l w total).2.2 ≠ some (.invalidRequest name oc nc) := by
  intro l
  induction l with
  | nil => intro _ w total name oc nc; simp [selectLoop]
  | cons g rest ih =>
    intro hmem w total name oc nc
    have hg := hmem g (List.mem_cons_self g rest)
    simp only [selectLoop]
    split
    · simp
    · next hlt =>
      split
      · exact ih (fun x hx => hmem x (List.mem_cons.mpr (Or.inr hx))) w total name oc nc
      · split
        · next hinv =>
          exact absurd hinv (by omega)
        · rcases hl : labelMachinesToSelectedForUpdate env w g
              (g.replicas - min g.replicas (cap - total)) with ⟨sel, w1, e⟩
          have hni := labelMachines_no_invalid env w g
            (g.replicas - min g.replicas (cap - total)) name oc nc
          rw [hl] at hni
          simp only at hni
          cases e with
          | some e =>
            simp only [hl]
            simpa using hni
          | none =>
            simp only [hl]
            exact ih (fun x hx => hmem x (List.mem_cons.mpr (Or.inr hx))) w1 (total + sel)
              name oc nc

/-- Claim C10: when every old generation carries a nonnegative desired replica
count, the invalid-request branch of `selectMachineForUpdate` is dead: the
function never returns the "got invalid request" error. -/
theorem select_no_invalid (env : Env) (w : World) (allISs oldISs : List MachineSet)
    (d : MachineDeployment) (u : Int) (h : ∀ is ∈ oldISs, 0 ≤ is.replicas)
    (name : String) (oc nc : Int) :
    (selectMachineForUpdate env w allISs oldISs d u).2.2 ≠
      some (.invalidRequest name oc nc) := by
  simp only [selectMachineForUpdate]
  split
  · simp
  · exact selectLoop_no_invalid env _ (sortMachineSets oldISs)
      (fun g hg => h g (mem_sortMachineSets hg)) w 0 name oc nc

/-- Claim C10, witness: a concrete selection pass that cannot produce the
invalid-request error. -/
theorem c10_witness :
    (selectMachineForUpdate envOK c3World [] [⟨"g", 1, 1, 0, []⟩] ⟨1, 0⟩ 0).2.2 ≠
      some (.invalidRequest "g" 1 0) :=
  select_no_invalid envOK c3World [] [⟨"g", 1, 1, 0, []⟩] ⟨1, 0⟩ 0
    (by intro is h; rw [List.mem_singleton] at h; subst h; decide) "g" 1 0

/-- Claim C8: when the selection loop reaches a generation for which the
computed new within-generation count exceeds the generation's desired
replica count (possible only for a negative replica count), the function
returns the hard invalid-request error naming the generation together with
its old and new counts, selects zero machines, and leaves the world
untouched. -/
theorem invalid_request_fatal (env : Env) (w : World) (allISs : List MachineSet)
    (d : MachineDeployment) (u : Int) (is : MachineSet)
    (h1 : d.replicas - maxUnavailableOf d < sumAvailableReplicas allISs - u)
    (h2 : is.replicas ≠ 0)
    (h3 : is.replicas - min is.replicas
      (sumAvailableReplicas allISs - u - (d.replicas - maxUnavailableOf d)) > is.replicas) :
    selectMachineForUpdate env w allISs [is] d u =
      (0, w, some (.invalidRequest is.name is.replicas (is.replicas - min is.replicas
        (sumAvailableReplicas allISs - u - (d.replicas - maxUnavailableOf d))))) := by
  simp only [selectMachineForUpdate, sortMachineSets, insertMS, selectLoop]
  rw [if_neg (by omega)]
  rw [if_neg (by omega), if_neg h2]
  rw [sub_zero]
  rw [if_pos h3]

/-- Claim C8, witness: a generation with replica count -1 triggers the
invalid-request error. -/
theorem c8_witness :
    selectMachineForUpdate envOK c3World [⟨"a", 0, 3, 0, []⟩] [⟨"g", -1, 0, 0, []⟩] ⟨2, 1⟩ 0 =
      (0, c3World, some (.invalidRequest "g" (-1) 0)) := by
  have h := invalid_request_fatal envOK c3World [⟨"a", 0, 3, 0, []⟩] ⟨2, 1⟩ 0
    ⟨"g", -1, 0, 0, []⟩ (by decide) (by decide) (by decide)
  exact h

/-- With nonnegative replica counts the source selection loop and the loop
written from the spec's words coincide. -/
theorem selectLoop_eq_spec (env : Env) (cap : Int) :
    ∀ (l : List MachineSet), (∀ g ∈ l, 0 ≤ g.replicas) →
    ∀ (w : World) (total : Int),
    selectLoop env cap l w total = selectSpecLoop env cap l w total := by
  intro l
  induction l with
  | nil => intro _ w total; rfl
  | cons g rest ih =>
    intro hmem w total
    have hg := hmem g (List.mem_cons_self g rest)
    have htail : ∀ x ∈ rest, 0 ≤ x.replicas :=
      fun x hx => hmem x (List.mem_cons.mpr (Or.inr hx))
    simp only [selectLoop, selectSpecLoop]
    by_cases hb : total ≥ cap
    · rw [if_pos hb, if_pos hb]
    · rw [if_neg hb, if_neg hb]
      by_cases hz : g.replicas = 0
      · rw [if_pos hz, if_pos hz]
        exact ih htail w total
      · rw [if_neg hz, if_neg hz]
        rw [if_neg (by omega)]
        rcases hl : labelMachinesToSelectedForUpdate env w g
            (g.replicas - min g.replicas (cap - total)) with ⟨sel, w1, e⟩
        cases e with
        | some e => simp only [hl]
        | none =>
          simp only [hl]
          exact ih htail w1 (total + sel)

/-- Claim C6: under nonnegative replica counts (where the dead invalid-request
branch, claim C10, cannot fire) `selectMachineForUpdate` is exactly the
algorithm the spec describes: generations processed in ascending
creation-timestamp order, zero-replica generations skipped, per-generation
ready count `min(generationReplicas, budget - totalSelected)`, new
within-generation target `generationReplicas - readyForUpdateCount`, and the
loop stopping once the total selected reaches the budget. -/
theorem selection_matches_spec (env : Env) (w : World) (allISs oldISs : List MachineSet)
    (d : MachineDeployment) (u : Int) (h : ∀ is ∈ oldISs, 0 ≤ is.replicas) :
    selectMachineForUpdate env w allISs oldISs d u =
      selectMachineForUpdateSpec env w allISs oldISs d u := by
  simp only [selectMachineForUpdate, selectMachineForUpdateSpec]
  split
  · rfl
  · exact selectLoop_eq_spec env _ (sortMachineSets oldISs)
      (fun g hg => h g (mem_sortMachineSets hg)) w 0

/-- Claim C6, witness: the source loop and the spec loop agree on a concrete
pass. -/
theorem c6_witness :
    selectMachineForUpdate envOK c3World [⟨"a", 0, 3, 0, []⟩] [⟨"g", 1, 1, 0, []⟩] ⟨2, 1⟩ 0 =
      selectMachineForUpdateSpec envOK c3World [⟨"a", 0, 3, 0, []⟩] [⟨"g", 1, 1, 0, []⟩]
        ⟨2, 1⟩ 0 :=
  selection_matches_spec envOK c3World [⟨"a", 0, 3, 0, []⟩] [⟨"g", 1, 1, 0, []⟩] ⟨2, 1⟩ 0
    (by intro is h; rw [List.mem_singleton] at h; subst h; decide)

/-- A successful scale leaves the set at exactly the target replica count. -/
theorem scale_ok {env : Env} {w : World} {is : MachineSet} {target : Int}
    {b : Bool} {is1 : MachineSet} {w1 : World}
    (h : scaleMachineSetAndRecordEvent env w is target = (b, is1, w1, none)) :
    is1.replicas = target := by
  unfold scaleMachineSetAndRecordEvent at h
  split at h
  · next heq =>
    simp only [Prod.mk.injEq] at h
    rw [← h.2.1]
    exact heq
  · split at h
    · simp at h
    · simp only [Prod.mk.injEq] at h
      rw [← h.2.1]

/-- In the transfer loop the per-generation transferred count and the global
added count move in lockstep. -/
theorem transferLoop_ok_acc (env : Env) (machines : List Machine) (is newIS : MachineSet) :
    ∀ (nodes : List Node) (w : World) (t a : Int) (w' : World) (t' a' : Int),
    transferLoop env machines is newIS nodes w t a = .ok w' t' a' → a' - t' = a - t := by
  intro nodes
  induction nodes with
  | nil =>
    intro w t a w' t' a' h
    simp only [transferLoop, TransferRes.ok.injEq] at h
    omega
  | cons node rest ih =>
    intro w t a w' t' a' h
    simp only [transferLoop] at h
    cases hgm : getMachineFromNode machines node with
    | none =>
      simp only [hgm] at h
      exact ih w t a w' t' a' h
    | some machine =>
      simp only [hgm] at h
      split at h
      · rcases hs1 : scaleMachineSetAndRecordEvent env w newIS (newIS.replicas + a)
          with ⟨b1, n1, w1, _ | e1⟩
        · simp only [hs1] at h
          rcases hs2 : scaleMachineSetAndRecordEvent env w1 is (is.replicas - t)
            with ⟨b2, is1, w2, _ | e2⟩
          · simp only [hs2] at h
            cases h
          · simp only [hs2] at h
            cases h
        · simp only [hs1] at h
          cases h
      · split at h
        · cases h
        · have := ih _ _ _ _ _ _ h
          omega

/-- Desired replicas of a list of generations, cons form. -/
theorem sumReplicas_cons (is : MachineSet) (l : List MachineSet) :
    sumReplicas (is :: l) = is.replicas + sumReplicas l := by
  simp [sumReplicas]

/-- When the outer loop of the transfer pass finishes without an early return,
the replicas removed from the old generations all reappear in the added
count. -/
theorem newISLoop_ok_sum (env : Env) (newIS : MachineSet) :
    ∀ (l : List MachineSet) (w : World) (a : Int) (w' : World) (olds : List MachineSet) (a' : Int),
    newISLoop env newIS l w a = .ok w' olds a' →
    sumReplicas olds + a' = sumReplicas l + a := by
  intro l
  induction l with
  | nil =>
    intro w a w' olds a' h
    simp only [newISLoop, NewISRes.ok.injEq] at h
    rw [← h.2.1, ← h.2.2]
  | cons is rest ih =>
    intro w a w' olds a' h
    simp only [newISLoop] at h
    split at h
    · cases h
    · split at h
      · cases h
      · split at h
        · cases h
        · next w1 t a1 heq1 =>
          rcases hs : scaleMachineSetAndRecordEvent env w1 is (is.replicas - t)
            with ⟨b2, is1, w2, _ | e2⟩
          · simp only [hs] at h
            rcases hrec : newISLoop env newIS rest w2 a1 with ⟨w3, olds0, a2⟩ | ⟨r, e, w3, olds0, n1⟩
            · simp only [hrec, NewISRes.ok.injEq] at h
              obtain ⟨hw, holds, ha⟩ := h
              have hacc := transferLoop_ok_acc env _ is newIS _ w 0 a w1 t a1 heq1
              have hrep := scale_ok hs
              have hsum := ih w2 a1 w3 olds0 a2 hrec
              rw [← holds, ← ha, sumReplicas_cons, sumReplicas_cons]
              omega
            · simp only [hrec] at h
              cases h
          · simp only [hs] at h
            cases h

/-- Claim C1 (replica conservation): a transfer pass that completes without
error on a new generation under its desired count preserves the sum of
desired replicas across the new generation and all old generations - each
old generation is scaled down by exactly its transferred count and the new
generation up by the total transferred. -/
theorem replica_conservation (env : Env) (w : World) (oldISs : List MachineSet)
    (newIS : MachineSet) (d : MachineDeployment) (hunder : newIS.replicas < d.replicas)
    (b : Bool) (w' : World) (olds' : List MachineSet) (new' : MachineSet)
    (hrun : reconcileNewMachineSetInPlace env w oldISs newIS d = ((b, none), w', olds', new')) :
    new'.replicas + sumReplicas olds' = newIS.replicas + sumReplicas oldISs := by
  unfold reconcileNewMachineSetInPlace at hrun
  split at hrun
  · next heq => exact absurd heq (by omega)
  · split at hrun
    · next hgt => exact absurd hgt (by omega)
    · split at hrun
      · simp at hrun
      · next w1 olds a heq =>
        rcases hscale : scaleMachineSetAndRecordEvent env w1 newIS (newIS.replicas + a)
          with ⟨scaled, newIS1, w2, e⟩
        rw [hscale] at hrun
        simp only [Prod.mk.injEq] at hrun
        obtain ⟨⟨-, he⟩, -, holds, hnew⟩ := hrun
        rw [he] at hscale
        have hrep := scale_ok hscale
        have hsum := newISLoop_ok_sum env newIS oldISs w 0 w1 olds a heq
        rw [← hnew, ← holds]
        omega

/-- Claim C1, witness: a pass transferring one machine scales the old
generation 3 down to 2 and the new generation 0 up to 1; the sum is
conserved. -/
theorem c1_witness :
    (reconcileNewMachineSetInPlace envOK c1World [c1Old] c1New ⟨2, 1⟩).2.2.2.replicas +
      sumReplicas (reconcileNewMachineSetInPlace envOK c1World [c1Old] c1New ⟨2, 1⟩).2.2.1 =
      c1New.replicas + sumReplicas [c1Old] :=
  replica_conservation envOK c1World [c1Old] c1New ⟨2, 1⟩ (by decide)
    (reconcileNewMachineSetInPlace envOK c1World [c1Old] c1New ⟨2, 1⟩).1.1
    (reconcileNewMachineSetInPlace envOK c1World [c1Old] c1New ⟨2, 1⟩).2.1
    (reconcileNewMachineSetInPlace envOK c1World [c1Old] c1New ⟨2, 1⟩).2.2.1
    (reconcileNewMachineSetInPlace envOK c1World [c1Old] c1New ⟨2, 1⟩).2.2.2
    (by decide)

/-- Claim C5, counterexample to the claim as stated: the transfer patch of
machine m2 fails (original error `patchMachine "m2"`) after one machine was
already transferred, and the first compensating scale - of the new set
"new" - also fails; the function then surfaces the compensation error
`scaleFailed "new"`, not the original transfer error, contradicting the
claim that the original error is surfaced whenever either compensating scale
fails. -/
theorem c5_counterexample :
    (reconcileNewMachineSetInPlace c5Env c5World [c5OldIS] c5NewIS ⟨2, 1⟩).1 =
      (true, some (.scaleFailed "new")) ∧
      some (Err.scaleFailed "new") ≠ some (Err.patchMachine "m2") :=
  ⟨by decide, by decide⟩

/-- Claim C5 (amended): when the machine patch during ownership transfer
fails, the function attempts to scale the new generation up to only the
replicas already transferred (`newIS.replicas + addedNewReplicasCount`) and
the old generation down by the count transferred out of it
(`is.replicas - transferredMachineCount`); if the first compensating scale
itself fails, that compensation error is surfaced (not the original patch
error); if the second compensating scale fails after the first succeeded, or
if both compensations succeed, the original transfer error is surfaced; in
the failing cases the result flag reports whether partial progress occurred
(`addedNewReplicasCount > 0`).  The final conjunct propagates the early
return unchanged through a single-old-generation
`reconcileNewMachineSetInPlace` pass. -/
theorem transfer_compensation (env : Env) (machines : List Machine) (is newIS : MachineSet)
    (node : Node) (rest : List Node) (w : World) (t a : Int) (machine : Machine)
    (hm : getMachineFromNode machines node = some machine)
    (hp : env.patchFails machine.name = true) :
    (∀ b1 newIS1 w1 e1,
      scaleMachineSetAndRecordEvent env w newIS (newIS.replicas + a) = (b1, newIS1, w1, some e1) →
      transferLoop env machines is newIS (node :: rest) w t a =
        .halt (decide (a > 0)) e1 w1 is newIS1) ∧
    (∀ b1 newIS1 w1,
      scaleMachineSetAndRecordEvent env w newIS (newIS.replicas + a) = (b1, newIS1, w1, none) →
      ∀ b2 is1 w2 e2,
      scaleMachineSetAndRecordEvent env w1 is (is.replicas - t) = (b2, is1, w2, some e2) →
      transferLoop env machines is newIS (node :: rest) w t a =
        .halt (decide (a > 0)) (.patchMachine machine.name) w2 is1 newIS1) ∧
    (∀ b1 newIS1 w1,
      scaleMachineSetAndRecordEvent env w newIS (newIS.replicas + a) = (b1, newIS1, w1, none) →
      ∀ b2 is1 w2,
      scaleMachineSetAndRecordEvent env w1 is (is.replicas - t) = (b2, is1, w2, none) →
      transferLoop env machines is newIS (node :: rest) w t a =
        .halt b1 (.patchMachine machine.name) w2 is1 newIS1) ∧
    (∀ (d : MachineDeployment), newIS.replicas < d.replicas →
      env.machineListFails is.selector = false → env.nodeListFails = false →
      ∀ r e wh ish nh,
      transferLoop env (w.machines.filter (fun m => matchesSelector m.labels is.selector)) is
        newIS (w.nodes.filter (fun n => lookupL n.labels updateSuccessfulKey == some "true"))
        w 0 0 = .halt r e wh ish nh →
      reconcileNewMachineSetInPlace env w [is] newIS d = ((r, some e), wh, [ish], nh)) := by
  refine ⟨?_, ?_, ?_, ?_⟩
  · intro b1 newIS1 w1 e1 hs1
    simp only [transferLoop, hm, hp, if_true, hs1]
  · intro b1 newIS1 w1 hs1 b2 is1 w2 e2 hs2
    simp only [transferLoop, hm, hp, if_true, hs1, hs2]
  · intro b1 newIS1 w1 hs1 b2 is1 w2 hs2
    simp only [transferLoop, hm, hp, if_true, hs1, hs2]
  · intro d hd hml hnl r e wh ish nh htr
    unfold reconcileNewMachineSetInPlace
    rw [if_neg (by omega), if_neg (by omega)]
    simp only [newISLoop, hml, hnl, Bool.false_eq_true, if_false, htr]

/-- Claim C5, witness: with five replicas already added, a failing patch
followed by a failing first compensating scale returns the compensation
error `scaleFailed "new"` with the partial-progress flag set. -/
theorem c5_witness :
    transferLoop c5Env [⟨"m2", [("t", "o"), (nodeLabelKey, "n2")], "old"⟩] c5OldIS c5NewIS
      [⟨"n2", [(updateSuccessfulKey, "true")], true⟩] c5World 0 5 =
      .halt (decide ((5 : Int) > 0)) (.scaleFailed "new") c5World c5OldIS c5NewIS :=
  (transfer_compensation c5Env [⟨"m2", [("t", "o"), (nodeLabelKey, "n2")], "old"⟩] c5OldIS
      c5NewIS ⟨"n2", [(updateSuccessfulKey, "true")], true⟩ [] c5World 0 5
      ⟨"m2", [("t", "o"), (nodeLabelKey, "n2")], "old"⟩ (by rfl) (by decide)).1
    false c5NewIS c5World (.scaleFailed "new") (by decide)

/-- With no injected get error, a node get is found or not-found, never the
error outcome. -/
theorem getNode_not_errored (env : Env) (w : World) (nname : String)
    (hng : env.nodeGetFails nname = false) : getNode env w nname ≠ .errored := by
  unfold getNode
  rw [if_neg (by simp [hng])]
  split <;> simp

/-- When machine patches, node updates and node gets all succeed, the
candidate-labeling machine loop finishes without error: not-found node
lookups (nodes absent from the world) only skip the machine. -/
theorem labelNodesMachineLoop_ok (env : Env)
    (hp : ∀ s, env.patchFails s = false)
    (hnu : ∀ s, env.nodeUpdateFails s = false)
    (hng : ∀ s, env.nodeGetFails s = false) :
    ∀ (ms : List Machine) (w : World), (labelNodesMachineLoop env ms w).2 = none := by
  intro ms
  induction ms with
  | nil => intro w; rfl
  | cons m rest ih =>
    intro w
    simp only [labelNodesMachineLoop]
    split
    · exact ih w
    · next nname heq =>
      split
      · exact ih w
      · rw [if_neg (by simp [hp])]
        generalize patchMachineLabels w m.name
          (mergeStringMaps m.labels [(candidateKey, "true")]) = w1
        split
        · next heq2 => exact absurd heq2 (getNode_not_errored env w1 nname (hng nname))
        · exact ih w1
        · next n heq2 =>
          split
          · exact ih w1
          · rw [if_neg (by simp [hnu])]
            exact ih _

/-- When machine patches succeed, the selected-label propagation loop of the
manual variant finishes without error: any node-lookup failure (not-found
included) only skips the machine. -/
theorem galMachineLoop_ok (env : Env) (hp : ∀ s, env.patchFails s = false) :
    ∀ (ms : List Machine) (w : World) (b : Bool),
    (galMachineLoop env ms w b).2.2 = none := by
  intro ms
  induction ms with
  | nil => intro w b; rfl
  | cons m rest ih =>
    intro w b
    simp only [galMachineLoop]
    split
    · exact ih w b
    · next nname heq =>
      split
      · exact ih w b
      · split
        · exact ih w b
        · exact ih w b
        · next n heq2 =>
          split
          · exact ih w b
          · next v heq3 =>
            rw [if_neg (by simp [hp])]
            exact ih _ true

/-- Claim C9: a not-found node lookup is tolerated as a skip, not an error.
When all other remote calls succeed, `labelNodesBackingMachineSets` (where a
not-found lookup arises from a node absent from the world) and
`getAndLabelMachinesSelectedForUpdate` (where any lookup outcome, not-found
included, is only logged) both complete without returning an error,
whatever nodes are missing. -/
theorem notfound_tolerated (env : Env)
    (hp : ∀ s, env.patchFails s = false)
    (hnu : ∀ s, env.nodeUpdateFails s = false)
    (hml : ∀ sel, env.machineListFails sel = false) :
    (∀ (msets : List MachineSet) (w : World), (∀ s, env.nodeGetFails s = false) →
      (labelNodesBackingMachineSets env msets w).2 = none) ∧
    (∀ (isets : List MachineSet) (w : World) (b : Bool),
      (getAndLabelMachinesSelectedForUpdate env isets w b).2.2 = none) := by
  constructor
  · intro msets
    induction msets with
    | nil => intro w hng; rfl
    | cons ms rest ih =>
      intro w hng
      simp only [labelNodesBackingMachineSets]
      rw [if_neg (by simp [hml])]
      rcases hres : labelNodesMachineLoop env
          (w.machines.filter (fun m => matchesSelector m.labels ms.selector)) w with ⟨w1, e⟩
      have hin := labelNodesMachineLoop_ok env hp hnu hng
        (w.machines.filter (fun m => matchesSelector m.labels ms.selector)) w
      rw [hres] at hin
      simp only at hin
      subst hin
      simp only [hres]
      exact ih w1 hng
  · intro isets
    induction isets with
    | nil => intro w b; rfl
    | cons is rest ih =>
      intro w b
      simp only [getAndLabelMachinesSelectedForUpdate]
      split
      · exact ih w b
      · rw [if_neg (by simp [hml])]
        rcases hres : galMachineLoop env
            (w.machines.filter (fun m => matchesSelector m.labels is.selector)) w b
          with ⟨b1, w1, e⟩
        have hin := galMachineLoop_ok env hp
          (w.machines.filter (fun m => matchesSelector m.labels is.selector)) w b
        rw [hres] at hin
        simp only at hin
        subst hin
        simp only [hres]
        exact ih w1 b1

/-- Claim C9, witness: a machine pointing at a node name that exists nowhere
is skipped by both functions without an error. -/
theorem c9_witness :
    (labelNodesBackingMachineSets envOK [⟨"old", 1, 1, 0, [("t", "o")]⟩]
      ⟨[⟨"m1", [("t", "o"), (nodeLabelKey, "ghost")], "old"⟩], [], []⟩).2 = none ∧
    (getAndLabelMachinesSelectedForUpdate envOK [⟨"old", 1, 1, 0, [("t", "o")]⟩]
      ⟨[⟨"m1", [("t", "o"), (nodeLabelKey, "ghost")], "old"⟩], [], []⟩ false).2.2 = none := by
  have h := notfound_tolerated envOK (fun _ => rfl) (fun _ => rfl) (fun _ => rfl)
  exact ⟨h.1 _ _ (fun _ => rfl), h.2 _ _ false⟩

/-- Claim C4: in both orchestrator variants, when the ownership-transfer step
reports progress (its boolean result is true), the machine-selection step
(`reconcileOldMachineSetsInPlace` in the automatic variant,
`getAndLabelMachinesSelectedForUpdate` in the manual one) does not run in
the same pass - the pass syncs status and returns. -/
theorem no_dual_progress :
    (∀ (env : Env) (w : World) (flag : Bool) (oldISs : List MachineSet)
      (newIS : MachineSet) (d : MachineDeployment) (e : Option Err),
      (rolloutAutoInPlace env w flag oldISs newIS d).2.1.transferOutcome = some (true, e) →
      (rolloutAutoInPlace env w flag oldISs newIS d).2.1.selectionRan = false) ∧
    (∀ (env : Env) (w : World) (flag : Bool) (oldISs : List MachineSet)
      (newIS : MachineSet) (d : MachineDeployment) (e : Option Err),
      (rolloutManualInPlace env w flag oldISs newIS d).2.1.transferOutcome = some (true, e) →
      (rolloutManualInPlace env w flag oldISs newIS d).2.1.selectionRan = false) := by
  have hauto : ∀ env flag allISs oldISs newIS d w2,
      (autoSelectionPhase env flag allISs oldISs newIS d w2).2.1 =
        ⟨some (false, none), true⟩ := by
    intro env flag allISs oldISs newIS d w2
    unfold autoSelectionPhase
    rcases reconcileOldMachineSetsInPlace env w2 allISs (filterActive oldISs) newIS d
      with ⟨ms, w3, _ | e1⟩ <;> (repeat' split) <;> simp_all
  have hmanual : ∀ env flag oldISs w2,
      (manualSelectionPhase env flag oldISs w2).2.1 = ⟨some (false, none), true⟩ := by
    intro env flag oldISs w2
    unfold manualSelectionPhase
    rcases getAndLabelMachinesSelectedForUpdate env oldISs w2 false with ⟨ms, w3, e1⟩
    (repeat' split) <;> simp_all
  constructor
  · intro env w flag oldISs newIS d e
    unfold rolloutAutoInPlace
    repeat' split
    all_goals intro h
    all_goals first
      | (rw [hauto] at h; simp at h)
      | simp_all
  · intro env w flag oldISs newIS d e
    unfold rolloutManualInPlace
    repeat' split
    all_goals intro h
    all_goals first
      | (rw [hmanual] at h; simp at h)
      | simp_all

/-- Claim C4, witness: a pass whose transfer step scales the over-provisioned
new generation down (progress `true`) does not run the selection step, in
either variant. -/
theorem c4_witness :
    ((rolloutAutoInPlace envOK ⟨[], [], []⟩ false [] ⟨"new", 3, 0, 0, []⟩ ⟨2, 0⟩).2.1.selectionRan
      = false) ∧
    ((rolloutManualInPlace envOK ⟨[], [], []⟩ false [] ⟨"new", 3, 0, 0, []⟩ ⟨2, 0⟩).2.1.selectionRan
      = false) :=
  ⟨no_dual_progress.1 envOK ⟨[], [], []⟩ false [] ⟨"new", 3, 0, 0, []⟩ ⟨2, 0⟩ none (by decide),
   no_dual_progress.2 envOK ⟨[], [], []⟩ false [] ⟨"new", 3, 0, 0, []⟩ ⟨2, 0⟩ none (by decide)⟩

end MCM
